import Mathlib

set_option autoImplicit false

/-!
Shallow embedding of the cardboardlint core (diff parser, line selector,
file filter, message/report model, linter contract) and proofs about it.

Python strings are modeled as Lean `String` (a wrapper around `List Char`);
the Python operations used by the code are re-implemented on the character
list so that everything is executable and kernel-reducible.  Python `dict`s
are modeled as association lists with insertion-order-preserving update,
Python `set`s of line numbers as lists (only membership is relevant),
Python `None` as `Option.none`, and raised exceptions as `Except.error`
carrying the exception text.
-/

namespace Cardboardlint

/-! ### Python string primitives -/

/-- Python `str.isspace` characters used by `str.split()` / `str.strip()`
(ASCII subset, which covers all inputs appearing in this code base). -/
def isPySpace (c : Char) : Bool :=
  c = ' ' || c = '\t' || c = '\n' || c = '\r' || c = '\x0b' || c = '\x0c'

/-- Python `s.startswith(p)`. -/
def pyStartsWith (s p : String) : Bool :=
  p.data.isPrefixOf s.data

/-- Python `s[n:]` (slicing counts characters, as Lean `List.drop` does). -/
def pyDrop (s : String) (n : Nat) : String :=
  ⟨s.data.drop n⟩

/-- Python `s[:n]`. -/
def pyTake (s : String) (n : Nat) : String :=
  ⟨s.data.take n⟩

/-- Python `s[i]` for a nonnegative index: `none` models the `IndexError`
raised on an out-of-range access. -/
def pyCharAt (s : String) (i : Nat) : Option Char :=
  s.data.get? i

/-- Python `len(s)`. -/
def pyLen (s : String) : Nat :=
  s.data.length

/-- Helper for `pySplit`: split on runs of whitespace, dropping empty parts,
exactly like Python `str.split()` with no argument. -/
def splitWsAux : List Char → List Char → List (List Char)
  | cur, [] => if cur.isEmpty then [] else [cur.reverse]
  | cur, c :: rest =>
    if isPySpace c then
      if cur.isEmpty then splitWsAux [] rest
      else cur.reverse :: splitWsAux [] rest
    else splitWsAux (c :: cur) rest

/-- Python `s.split()` (no separator argument). -/
def pySplit (s : String) : List String :=
  (splitWsAux [] s.data).map (⟨·⟩)

/-- Helper: split on a single separator character, keeping empty parts
(always returns at least one part), like Python `s.split(sep)`. -/
def splitOnCharAux (sep : Char) : List Char → List Char → List (List Char)
  | cur, [] => [cur.reverse]
  | cur, c :: rest =>
    if c = sep then cur.reverse :: splitOnCharAux sep [] rest
    else splitOnCharAux sep (c :: cur) rest

/-- Python `s.split(sep)` for a one-character separator. -/
def pySplitChar (s : String) (sep : Char) : List String :=
  (splitOnCharAux sep [] s.data).map (⟨·⟩)

/-- Python `s.splitlines()` restricted to `'\n'` separators (the only line
separator occurring in the inputs handled here): trailing newline does not
produce a final empty line. -/
def pySplitlines (s : String) : List String :=
  let parts := splitOnCharAux '\n' [] s.data
  (if parts.getLast? = some [] then parts.dropLast else parts).map (⟨·⟩)

/-- Python `s.strip()`. -/
def pyStrip (s : String) : String :=
  ⟨((s.data.dropWhile isPySpace).reverse.dropWhile isPySpace).reverse⟩

/-- Value of a nonempty digit string (helper for `pyInt?`). -/
def digitsValAux : Nat → List Char → Option Nat
  | acc, [] => some acc
  | acc, c :: rest =>
    if c.isDigit then digitsValAux (10 * acc + (c.toNat - '0'.toNat)) rest
    else none

/-- Python `int(s)`: strips whitespace, accepts an optional sign followed by
at least one digit; `none` models the `ValueError` raised otherwise. -/
def pyInt? (s : String) : Option Int :=
  match (pyStrip s).data with
  | [] => none
  | '+' :: rest =>
    if rest.isEmpty then none else (digitsValAux 0 rest).map Int.ofNat
  | '-' :: rest =>
    if rest.isEmpty then none else (digitsValAux 0 rest).map (fun n => -(n : Int))
  | l => (digitsValAux 0 l).map Int.ofNat

/-- Python `range(a, b)` over integers, as a list. -/
def rangeInt (a b : Int) : List Int :=
  (List.range (b - a).toNat).map (fun i => a + i)

/-! ### fnmatch (Python standard library `fnmatch.fnmatch` on POSIX)

`fnmatch` translates the glob pattern (`*`, `?`, `[seq]`, `[!seq]`, a `[`
with no closing `]` is a literal) and matches it against the whole name;
`*` matches any character including `/`.  We mirror the translate-then-match
structure of the library. -/

inductive GlobTok where
  | star : GlobTok
  | anyChar : GlobTok
  | lit : Char → GlobTok
  | cls : Bool → List Char → GlobTok
deriving DecidableEq

/-- Scan for the closing `]` of a character class; returns the raw class
content and the remaining pattern. -/
def findClose : List Char → Option (List Char × List Char)
  | [] => none
  | ']' :: rest => some ([], rest)
  | c :: rest => (findClose rest).map (fun p => (c :: p.1, p.2))

/-- Tokenize a glob pattern.  The fuel argument (always at least the length
of the input) makes the recursion structural. -/
def translateGlob : Nat → List Char → List GlobTok
  | 0, _ => []
  | _, [] => []
  | fuel + 1, '*' :: rest => .star :: translateGlob fuel rest
  | fuel + 1, '?' :: rest => .anyChar :: translateGlob fuel rest
  | fuel + 1, '[' :: rest =>
    let (neg, rest1) :=
      match rest with
      | '!' :: r => (true, r)
      | _ => (false, rest)
    let body : Option (List Char × List Char) :=
      match rest1 with
      | ']' :: r2 => (findClose r2).map (fun p => (']' :: p.1, p.2))
      | _ => findClose rest1
    match body with
    | some (content, rest2) => .cls neg content :: translateGlob fuel rest2
    | none => .lit '[' :: translateGlob fuel rest
  | fuel + 1, c :: rest => .lit c :: translateGlob fuel rest

/-- Match one character against raw character-class content, with `a-z`
ranges; a `-` first or last is a literal. -/
def classMatch : List Char → Char → Bool
  | [], _ => false
  | a :: '-' :: b :: rest, c => (a ≤ c && c ≤ b) || classMatch rest c
  | a :: rest, c => (a = c) || classMatch rest c

/-- Match a tokenized glob pattern against a character list.  `star` matches
an arbitrary (possibly empty) character sequence, hence the suffix search. -/
def matchToks : List GlobTok → List Char → Bool
  | [], cs => cs.isEmpty
  | .star :: ps, cs => cs.tails.any (fun suffix => matchToks ps suffix)
  | .anyChar :: ps, cs =>
    match cs with
    | [] => false
    | _ :: cs' => matchToks ps cs'
  | .lit a :: ps, cs =>
    match cs with
    | [] => false
    | c :: cs' => a = c && matchToks ps cs'
  | .cls neg content :: ps, cs =>
    match cs with
    | [] => false
    | c :: cs' => (classMatch content c != neg) && matchToks ps cs'

/-- Python `fnmatch.fnmatch(name, pat)` (POSIX: `normcase` is the identity). -/
def fnmatch (name pat : String) : Bool :=
  matchToks (translateGlob (pat.data.length + 1) pat.data) name.data

/-! ### File filter, `cardboardlint/utils.py` version

`matches_filefilter(filename, rules)`: first a loop checks every rule's
first character (raising `ValueError` for a rule not starting with `+`/`-`,
and `IndexError` for an empty rule), then a second loop returns the polarity
of the first rule whose stripped glob pattern `fnmatch`-matches the full
filename; no match gives `False`. -/

namespace Utils

/-- The format-checking loop of `utils.matches_filefilter` (runs over all
rules before any matching is attempted). -/
def checkRuleFormats : List String → Except String Unit
  | [] => .ok ()
  | rule :: rest =>
    match pyCharAt rule 0 with
    | none => .error "IndexError: string index out of range"
    | some c =>
      if c = '+' || c = '-' then checkRuleFormats rest
      else .error "ValueError: Unexpected first character in filename filter rule"

/-- The matching loop of `utils.matches_filefilter`. -/
def scanRules (filename : String) : List String → Bool
  | [] => false
  | rule :: rest =>
    if fnmatch filename (pyStrip (pyDrop rule 1)) then pyCharAt rule 0 = some '+'
    else scanRules filename rest

/-- Embedding of `cardboardlint.utils.matches_filefilter`. -/
def matches_filefilter (filename : String) (rules : List String) : Except String Bool :=
  match checkRuleFormats rules with
  | .error e => .error e
  | .ok _ => .ok (scanRules filename rules)

end Utils

/-- Spec-side definition for the refinement claim on rule scanning, written
from the spec's words: the first rule whose pattern matches determines the
outcome (`+` means included), and no match means exclusion. -/
def firstMatchPolarity (filename : String) (rules : List String) : Bool :=
  match rules.find? (fun rule => fnmatch filename (pyStrip (pyDrop rule 1))) with
  | some rule => pyCharAt rule 0 = some '+'
  | none => false

/-! ### File filter, `cardboardlint/common.py` version

This legacy variant splits both the filename and the pattern on `/`
(a `/` preceded by a backslash is not a separator), skips rules whose
pattern has more segments than the filename, and matches the pattern's
segments against the tail of the filename's segments; it returns `None`
(modeled as `Option.none`) when no rule matches. -/

namespace Common

/-- Split on `/` not preceded by a backslash, mirroring
`re.split(r'(?<!\\)' + os.sep, s)` with `os.sep = '/'`. -/
def reSplitAux (prev : Option Char) (cur : List Char) : List Char → List (List Char)
  | [] => [cur.reverse]
  | c :: rest =>
    if c = '/' ∧ prev ≠ some '\\' then cur.reverse :: reSplitAux (some c) [] rest
    else reSplitAux (some c) (c :: cur) rest

/-- `re_dir.split` applied to a string. -/
def reSplit (s : String) : List String :=
  (reSplitAux none [] s.data).map (⟨·⟩)

/-- The per-rule pattern application of `common.matches_filefilter`: a rule
with more segments than the filename is skipped (`continue`), otherwise the
reversed segment lists are zipped and every pair must `fnmatch`. -/
def ruleMatches (filenameSplit : List String) (rule : String) : Bool :=
  let patternSplit := reSplit (pyStrip (pyDrop rule 1))
  if filenameSplit.length < patternSplit.length then false
  else (filenameSplit.reverse.zip patternSplit.reverse).all (fun p => fnmatch p.1 p.2)

/-- The rule loop of `common.matches_filefilter`: format errors are checked
per iteration, and falling off the end returns Python `None`. -/
def matchLoop (filenameSplit : List String) : List String → Except String (Option Bool)
  | [] => .ok none
  | rule :: rest =>
    match pyCharAt rule 0 with
    | none => .error "IndexError: string index out of range"
    | some c =>
      if c = '+' || c = '-' then
        if (pyDrop rule 1).data.contains '\\' then
          .error "ValueError: Cannot have double backslash in the pattern."
        else if ruleMatches filenameSplit rule then .ok (some (c = '+'))
        else matchLoop filenameSplit rest
      else .error "ValueError: Unexpected first character in filename filter rule"

/-- Embedding of `cardboardlint.common.matches_filefilter`. -/
def matches_filefilter (filename : String) (rules : List String) : Except String (Option Bool) :=
  matchLoop (reSplit filename) rules

end Common

/-! ### Dictionaries (Python `dict` as an insertion-ordered association list) -/

/-- Python `d[k] = v`: replace the value in place if the key is present,
otherwise append the new pair at the end. -/
def dictSet {κ ν : Type} [DecidableEq κ] : List (κ × ν) → κ → ν → List (κ × ν)
  | [], k, v => [(k, v)]
  | kv :: rest, k, v =>
    if kv.1 = k then (kv.1, v) :: rest else kv :: dictSet rest k v

/-- Python `d[k]` / `d.get(k)`. -/
def dictGet? {κ ν : Type} [DecidableEq κ] : List (κ × ν) → κ → Option ν
  | [], _ => none
  | kv :: rest, k => if kv.1 = k then some kv.2 else dictGet? rest k

/-- Python `k in d`. -/
def dictHasKey {κ ν : Type} [DecidableEq κ] (d : List (κ × ν)) (k : κ) : Bool :=
  (dictGet? d k).isSome

/-- The `files_lines` mapping (`FilesLines` in the spec): filename to either
the "all lines" sentinel `None` or a set of line numbers.  The keys are
`Option String` so that a lookup with Python `None` (a repository-wide
message's filename) is expressible; every producer in the code inserts only
string keys (`some _`). -/
abbrev FilesLines := List (Option String × Option (List Int))

/-! ### Message (`cardboardlint/report.py`, class `Message`) -/

structure Message where
  filename : Option String
  lineno : Option Int
  charno : Option Int
  text : String
  nline : Int
deriving DecidableEq

/-- Validity of an optional `lineno`/`charno` argument: `None` or a strictly
positive integer (the `Message.__init__` check). -/
def okOptPos : Option Int → Bool
  | none => true
  | some v => 0 < v

/-- Embedding of `Message.__init__`, including its `TypeError` validation of
`lineno`, `charno` and `nline`. -/
def Message.make (filename : Option String) (lineno charno : Option Int)
    (text : String) (nline : Int) : Except String Message :=
  if ¬ okOptPos lineno then
    .error "TypeError: lineno must be a positive integer or None"
  else if ¬ okOptPos charno then
    .error "TypeError: charno must be a positive integer or None"
  else if ¬ (0 < nline) then
    .error "TypeError: nline must be a strictly positive integer"
  else
    .ok ⟨filename, lineno, charno, text, nline⟩

/-- The comparison tuple of `Message.__lt__`: `(self.filename or '',
self.lineno or 0, self.charno or 0, self.text)`.  (For the `or` defaults,
`getD` agrees with Python truthiness: `None` becomes `''`/`0`, and the only
falsy values the fields can hold map to themselves.) -/
def msgKey (m : Message) : String × Int × Int × String :=
  (m.filename.getD "", m.lineno.getD 0, m.charno.getD 0, m.text)

/-- Embedding of `Message.__lt__`: Python tuple comparison is lexicographic. -/
def Message.lt (m o : Message) : Prop :=
  (msgKey m).1 < (msgKey o).1 ∨
    ((msgKey m).1 = (msgKey o).1 ∧
      ((msgKey m).2.1 < (msgKey o).2.1 ∨
        ((msgKey m).2.1 = (msgKey o).2.1 ∧
          ((msgKey m).2.2.1 < (msgKey o).2.2.1 ∨
            ((msgKey m).2.2.1 = (msgKey o).2.2.1 ∧
              (msgKey m).2.2.2 < (msgKey o).2.2.2)))))

/-! ### Report (`cardboardlint/report.py`, class `Report`) -/

structure Report where
  linter_name : String
  files_lines : FilesLines
  messages : List Message
deriving DecidableEq

/-- Embedding of `Report.__call__`: propose a message.  Accepting appends a
`Message` (whose constructor may raise) and returns `True`; otherwise the
report is unchanged and the result is `False`. -/
def reportCall (r : Report) (filename : Option String) (lineno charno : Option Int)
    (text : String) (nline : Int) : Except String (Report × Bool) :=
  let accept : Except String (Report × Bool) :=
    (Message.make filename lineno charno text nline).map
      (fun m => ({ r with messages := r.messages ++ [m] }, true))
  match dictGet? r.files_lines filename with
  | some line_numbers =>
    match line_numbers, lineno with
    | none, _ => accept
    | some _, none => accept
    | some lns, some l0 =>
      if (rangeInt l0 (l0 + nline)).any (fun iline => lns.contains iline) then accept
      else .ok (r, false)
  | none => .ok (r, false)

/-- Spec-side acceptance gate, written from the spec's words for the
refinement claim: the filename must be a key of the scope, and the scope for
that file is "all lines", or the line number is absent, or it falls in the
scope's line set. -/
def acceptanceGateSpec (files_lines : FilesLines) (filename : Option String)
    (lineno : Option Int) : Bool :=
  match dictGet? files_lines filename with
  | none => false
  | some none => true
  | some (some lns) =>
    match lineno with
    | none => true
    | some l => lns.contains l

/-- Embedding of `Report.filter_files`: restrict the scope to the filenames
accepted by `utils.matches_filefilter` (which may raise). -/
def filterFilesLines (filefilter : List String) : FilesLines → Except String FilesLines
  | [] => .ok []
  | kv :: rest => do
    let keep ← match kv.1 with
      | some fn => Utils.matches_filefilter fn filefilter
      | none => .error "TypeError: fnmatch of None"
    let rest' ← filterFilesLines filefilter rest
    if keep then return kv :: rest' else return rest'

def Report.filter_files (r : Report) (filefilter : List String) : Except String Report :=
  (filterFilesLines filefilter r.files_lines).map
    (fun fl => { r with files_lines := fl })

/-! ### Diff data model (`cardboardlint/diff.py`) -/

structure Hunk where
  source_start : Int
  del_lines : List String
  add_lines : List String
deriving DecidableEq

/-- `Hunk.source_length`: the number of removed lines. -/
def Hunk.source_length (h : Hunk) : Nat := h.del_lines.length

/-- `Hunk.target_length`: the number of added lines. -/
def Hunk.target_length (h : Hunk) : Nat := h.add_lines.length

structure PatchedFile where
  source_filename : Option String
  target_filename : Option String
  hunks : List Hunk
deriving DecidableEq

def PatchedFile.source_starts (pf : PatchedFile) : List Int :=
  pf.hunks.map (fun h => h.source_start)

def PatchedFile.source_lengths (pf : PatchedFile) : List Nat :=
  pf.hunks.map (fun h => h.source_length)

/-- The running-offset loop of `PatchedFile.target_starts`. -/
def targetStartsAux : Int → List Hunk → List Int
  | _, [] => []
  | offset, h :: hs =>
    (h.source_start + offset) ::
      targetStartsAux (offset + (h.target_length : Int) - (h.source_length : Int)) hs

def PatchedFile.target_starts (pf : PatchedFile) : List Int :=
  targetStartsAux 0 pf.hunks

def PatchedFile.target_lengths (pf : PatchedFile) : List Nat :=
  pf.hunks.map (fun h => h.target_length)

/-! ### Diff parser (`parse_unified_diff`, `_parse_diff_filename`, `_parse_hunks`) -/

/-- Embedding of `_parse_diff_filename`: take the second whitespace-separated
field, map `/dev/null` to absent, and strip the expected path marker
(`ValueError` when it is missing). -/
def parseDiffFilename (line : String) (pfx : String) : Except String (Option String) :=
  match (pySplit line).get? 1 with
  | none => .error "IndexError: list index out of range"
  | some filename =>
    if filename = "/dev/null" then .ok none
    else if pyStartsWith filename pfx then .ok (some (pyDrop filename (pyLen pfx)))
    else .error "ValueError: path marker not found"

/-- The test `line != "" and line[0] in '+-' and line[:4] not in
['+++ ', '--- ']` from `_parse_hunks`. -/
def isHunkBodyLine (line : String) : Bool :=
  line ≠ "" && (pyCharAt line 0 = some '+' || pyCharAt line 0 = some '-')
    && ¬ (pyTake line 4 = "+++ " || pyTake line 4 = "--- ")

/-- Hunk emission in `_parse_hunks`: a hunk is appended only when it has at
least one added or deleted line.  `source_start` is necessarily assigned
(`some`) whenever a hunk is emitted, since emission requires a consumed body
line; the `getD` default is unreachable. -/
def flushHunks (ss : Option Int) (dels adds : List String) : List Hunk :=
  if adds ≠ [] ∨ dels ≠ [] then [⟨ss.getD 0, dels, adds⟩] else []

/-- Embedding of the `_parse_hunks` loop: returns the hunks parsed in this
`@@` section and the unconsumed remainder of the line list.  After a context
line the loop continues with `source_start = None` and empty accumulators;
the source resets them only inside the flush branch, but whenever nothing
was flushed they already held exactly these values. -/
def parseHunksBody (start : Int) (ss : Option Int) (dels adds : List String) :
    List String → List Hunk × List String
  | [] => (flushHunks ss dels adds, [])
  | line :: rest =>
    if isHunkBodyLine line then
      let ss' := if ss = none then some start else ss
      if pyCharAt line 0 = some '-' then
        parseHunksBody (start + 1) ss' (dels ++ [pyDrop line 1]) adds rest
      else
        parseHunksBody start ss' dels (adds ++ [pyDrop line 1]) rest
    else
      let emitted := flushHunks ss dels adds
      if pyStartsWith line " " then
        let step := parseHunksBody (start + 1) none [] [] rest
        (emitted ++ step.1, step.2)
      else
        (emitted, line :: rest)

/-- Parser state of the `parse_unified_diff` main loop.  `source_filename`,
`target_filename` and `start` are `none` while the corresponding Python
local variable is still unassigned (reading it would raise); `current` is
the `PatchedFile` whose `hunks` list is currently open (`hunks is not None`),
and `finished` collects the files already closed. -/
structure ParseState where
  source_filename : Option (Option String)
  target_filename : Option (Option String)
  start : Option Int
  finished : List PatchedFile
  current : Option (Option String × Option String × List Hunk)

/-- Setting `hunks = None` detaches the current `PatchedFile` (it stays in
the result list, here `finished`). -/
def closeCurrent (st : ParseState) : ParseState :=
  match st.current with
  | none => st
  | some c => { st with finished := st.finished ++ [⟨c.1, c.2.1, c.2.2⟩], current := none }

def currentToList : Option (Option String × Option String × List Hunk) → List PatchedFile
  | none => []
  | some c => [⟨c.1, c.2.1, c.2.2⟩]

/-- The main loop of `parse_unified_diff`.  The fuel argument (always larger
than the number of remaining lines; every iteration consumes at least one
line) makes the recursion structural. -/
def parseMainGo (srcPfx tgtPfx : String) :
    Nat → List String → ParseState → Except String (List PatchedFile)
  | 0, _, _ => .error "fuel exhausted (unreachable: fuel exceeds the line count)"
  | _ + 1, [], st => .ok (st.finished ++ currentToList st.current)
  | fuel + 1, line :: rest, st =>
    if pyStartsWith line "--- " then
      match parseDiffFilename line srcPfx with
      | .error e => .error e
      | .ok fn =>
        parseMainGo srcPfx tgtPfx fuel rest
          { closeCurrent st with source_filename := some fn }
    else if pyStartsWith line "+++ " then
      match parseDiffFilename line tgtPfx with
      | .error e => .error e
      | .ok fn =>
        parseMainGo srcPfx tgtPfx fuel rest
          { closeCurrent st with target_filename := some fn }
    else if pyStartsWith line "@@ " then
      match (pySplit line).get? 1 with
      | none => .error "IndexError: list index out of range"
      | some field =>
        match pyInt? (((pySplitChar (pyDrop field 1) ',').headD "")) with
        | none => .error "ValueError: invalid literal for int()"
        | some n =>
          match st.current with
          | some _ => parseMainGo srcPfx tgtPfx fuel rest { st with start := some (n - 1) }
          | none =>
            match st.source_filename, st.target_filename with
            | some sf, some tf =>
              parseMainGo srcPfx tgtPfx fuel rest
                { st with start := some (n - 1), current := some (sf, tf, []) }
            | _, _ => .error "NameError: name referenced before assignment"
    else if line = "" then .error "IndexError: string index out of range"
    else if pyCharAt line 0 = some '+' || pyCharAt line 0 = some '-'
        || pyCharAt line 0 = some ' ' then
      match st.current with
      | none => .error "AssertionError: hunks is not None"
      | some c =>
        match st.start with
        | none => .error "NameError: name referenced before assignment"
        | some start =>
          let step := parseHunksBody start none [] [] (line :: rest)
          parseMainGo srcPfx tgtPfx fuel step.2
            { st with current := some (c.1, c.2.1, c.2.2 ++ step.1) }
    else parseMainGo srcPfx tgtPfx fuel rest st

/-- Embedding of `parse_unified_diff`.  `Except` carries the exceptions the
Python code can raise while parsing. -/
def parse_unified_diff (diff_output : String) (srcPfx tgtPfx : String) :
    Except String (List PatchedFile) :=
  let lines := pySplitlines diff_output
  parseMainGo srcPfx tgtPfx (lines.length + 1) lines ⟨none, none, none, [], none⟩

/-! ### Line selector (`extract_files_lines`) and `cli.run_diff` -/

/-- Embedding of `extract_files_lines`: for every patched file with a present
target filename, collect the target line ranges of all hunks (the set of
line numbers is modeled as a list; only membership is meaningful). -/
def extractStep (result : FilesLines) (pf : PatchedFile) : FilesLines :=
  match pf.target_filename with
  | none => result
  | some _ =>
    let lines := (pf.target_starts.zip pf.target_lengths).foldl
      (fun acc p => acc ++ rangeInt p.1 (p.1 + (p.2 : Int))) []
    dictSet result pf.target_filename (some lines)

def extract_files_lines (patch : List PatchedFile) : FilesLines :=
  patch.foldl extractStep []

/-- The refspec branch of `cli.run_diff`, as a function of the captured
`git diff` output: parse with markers `a/`, `b/` and extract the changed
lines. -/
def runDiffWithRefspec (diff_output : String) : Except String FilesLines :=
  (parse_unified_diff diff_output "a/" "b/").map extract_files_lines

/-- The no-refspec branch of `cli.run_diff`, as a function of the two
captured `git ls-files` outputs: every listed file maps to the "all lines"
sentinel. -/
def runDiffFullListing (lsTracked lsOthers : String) : FilesLines :=
  let d1 := (pySplitlines lsTracked).foldl (fun acc fn => dictSet acc (some fn) none) []
  (pySplitlines lsOthers).foldl (fun acc fn => dictSet acc (some fn) none) d1

/-! ### Linter contract (`cardboardlint/linter.py`) -/

/-- Configuration values (opaque payloads of the per-linter config dict). -/
inductive ConfigVal where
  | rules : List String → ConfigVal
  | str : String → ConfigVal
deriving DecidableEq

abbrev Config := List (String × ConfigVal)

/-- Embedding of `apply_config_defaults`: reject any config key absent from
the default configuration, then overlay the config on a copy of the
defaults. -/
def apply_config_defaults (linter_name : String) (config default_config : Config) :
    Except String Config :=
  match config.find? (fun kv => ! dictHasKey default_config kv.1) with
  | some kv =>
    .error ("ValueError: Unknown config key for linter " ++ linter_name ++ ": " ++ kv.1)
  | none => .ok (config.foldl (fun merged kv => dictSet merged kv.1 kv.2) default_config)

structure Linter where
  name : String
  default_config : Config
  style : String
  language : String
  can_fix : Bool

/-- Embedding of `Linter.__call__` (the `lint` adapter body is passed as a
function).  After the config is merged, the source executes
`report.filter(config['filefilter'])` (linter.py line 85); `Report` defines
`filter_files` (report.py line 88) but no attribute named `filter`, so this
attribute access raises `AttributeError` before `lint` is ever invoked. -/
def linterCall (_lint : Config → Report → Int → Bool → Except String (Report × Bool))
    (l : Linter) (config : Config) (_report : Report) (_numproc : Int) (fixit : Bool) :
    Except String (Report × Bool) :=
  if fixit ∧ ¬ l.can_fix then
    .error ("ValueError: Linter " ++ l.name ++ " cannot fix files.")
  else
    match apply_config_defaults l.name config l.default_config with
    | .error e => .error e
    | .ok _merged => .error "AttributeError: Report object has no attribute filter"

/-! ## Theorems -/

instance {ε α : Type} [DecidableEq ε] [DecidableEq α] : DecidableEq (Except ε α)
  | .ok a, .ok b =>
    if h : a = b then .isTrue (by rw [h]) else .isFalse (fun hc => by cases hc; exact h rfl)
  | .ok _, .error _ => .isFalse (fun hc => by cases hc)
  | .error _, .ok _ => .isFalse (fun hc => by cases hc)
  | .error e, .error f =>
    if h : e = f then .isTrue (by rw [h]) else .isFalse (fun hc => by cases hc; exact h rfl)

/-! ### C1: the Report acceptance gate -/

/-- C1.  For every Report and every proposed finding with `nline = 1` (and
with valid `lineno`/`charno` arguments, per the documented `Message`
invariant), `Report.__call__` returns `True` exactly when the filename is a
key of `files_lines` and (the scope for that file is the "all lines"
sentinel `None`, or `lineno` is `None`, or `lineno` is an element of the
scope's line set); on `True` exactly one `Message` with those fields is
appended, and otherwise the report is unchanged. -/
theorem report_acceptance_gate (r : Report) (fn : Option String) (ln cn : Option Int)
    (tx : String) (hl : okOptPos ln = true) (hc : okOptPos cn = true) :
    reportCall r fn ln cn tx 1 =
      .ok
        (if acceptanceGateSpec r.files_lines fn ln then
          ({ r with messages := r.messages ++ [⟨fn, ln, cn, tx, 1⟩] }, true)
        else (r, false)) := by
  have hmk : Message.make fn ln cn tx 1 = .ok ⟨fn, ln, cn, tx, 1⟩ := by
    simp [Message.make, hl, hc]
  have hr : ∀ l0 : Int, rangeInt l0 (l0 + 1) = [l0] := by
    intro l0
    have h1 : (l0 + 1 - l0).toNat = 1 := by omega
    unfold rangeInt
    rw [h1]
    simp [List.range_succ]
  cases hget : dictGet? r.files_lines fn with
  | none => simp [reportCall, acceptanceGateSpec, hget]
  | some v =>
    cases v with
    | none => simp [reportCall, acceptanceGateSpec, hget, hmk, Except.map]
    | some lns =>
      cases ln with
      | none => simp [reportCall, acceptanceGateSpec, hget, hmk, Except.map]
      | some l0 =>
        by_cases hmem : l0 ∈ lns
        · simp [reportCall, acceptanceGateSpec, hget, hmk, hr, hmem, Except.map]
        · simp [reportCall, acceptanceGateSpec, hget, hmk, hr, hmem, Except.map]

/-- Witness for C1 at a concrete input (scope from the repo's own test
`test_indiff1`). -/
theorem report_acceptance_gate_inst :
    reportCall ⟨"bork", [(some "test.txt", some [1])], []⟩ (some "test.txt")
        (some 1) (some 4) "error" 1 =
      .ok (⟨"bork", [(some "test.txt", some [1])],
            [⟨some "test.txt", some 1, some 4, "error", 1⟩]⟩, true) := by
  have h := report_acceptance_gate ⟨"bork", [(some "test.txt", some [1])], []⟩
    (some "test.txt") (some 1) (some 4) "error" (by decide) (by decide)
  simpa using h

/-! ### C9: the Message ordering is a strict order -/

/-- The comparison tuple as an iterated lexicographic product. -/
def msgKeyLex (m : Message) : Lex (String × Lex (Int × Lex (Int × String))) :=
  toLex ((msgKey m).1, toLex ((msgKey m).2.1, toLex ((msgKey m).2.2.1, (msgKey m).2.2.2)))

instance (m o : Message) : Decidable (Message.lt m o) := by
  unfold Message.lt
  infer_instance

theorem message_lt_iff_lex (m o : Message) : Message.lt m o ↔ msgKeyLex m < msgKeyLex o := by
  simp [Message.lt, msgKeyLex, Prod.Lex.lt_iff]

/-- C9.  The `Message.__lt__` comparison — the lexicographic order on the
tuple `(filename or '', lineno or 0, charno or 0, text)`, with absent fields
sorting as the minimal value `''`/`0` — is transitive and antisymmetric
(asymmetric, as it is a strict comparison). -/
theorem message_lt_strict_order (m1 m2 m3 : Message) :
    (Message.lt m1 m2 → Message.lt m2 m3 → Message.lt m1 m3) ∧
    (Message.lt m1 m2 → Message.lt m2 m1 → False) := by
  constructor
  · intro h1 h2
    rw [message_lt_iff_lex] at h1 h2 ⊢
    exact lt_trans h1 h2
  · intro h1 h2
    rw [message_lt_iff_lex] at h1 h2
    exact absurd h2 (lt_asymm h1)

/-- Witness for C9 at concrete messages (three of the messages of the repo's
`test_message`, in sorted order). -/
theorem message_lt_strict_order_inst :
    Message.lt ⟨some "test.txt", none, some 4, "error", 1⟩
        ⟨some "test.txt", some 1, some 4, "error", 1⟩ ∧
      ¬ Message.lt ⟨some "test.txt", some 1, some 4, "error", 1⟩
          ⟨some "test.txt", none, some 4, "error", 1⟩ := by
  have hab : Message.lt ⟨some "test.txt", none, some 4, "error", 1⟩
      ⟨some "test.txt", some 1, none, "error", 1⟩ :=
    Or.inr ⟨rfl, Or.inl (by decide)⟩
  have hbc : Message.lt ⟨some "test.txt", some 1, none, "error", 1⟩
      ⟨some "test.txt", some 1, some 4, "error", 1⟩ :=
    Or.inr ⟨rfl, Or.inr ⟨rfl, Or.inl (by decide)⟩⟩
  have hac := (message_lt_strict_order ⟨some "test.txt", none, some 4, "error", 1⟩
    ⟨some "test.txt", some 1, none, "error", 1⟩
    ⟨some "test.txt", some 1, some 4, "error", 1⟩).1 hab hbc
  exact ⟨hac, fun h =>
    (message_lt_strict_order ⟨some "test.txt", none, some 4, "error", 1⟩
      ⟨some "test.txt", some 1, some 4, "error", 1⟩
      ⟨some "test.txt", some 1, some 4, "error", 1⟩).2 hac h⟩

/-! ### C4: first-match polarity of the utils file filter -/

/-- A rule with a well-formed polarity marker. -/
def wfRule (r : String) : Prop :=
  pyCharAt r 0 = some '+' ∨ pyCharAt r 0 = some '-'

instance (r : String) : Decidable (wfRule r) := by
  unfold wfRule
  infer_instance

theorem checkRuleFormats_ok {rules : List String} (h : ∀ r ∈ rules, wfRule r) :
    Utils.checkRuleFormats rules = .ok () := by
  induction rules with
  | nil => rfl
  | cons rule rest ih =>
    have hrest := ih (fun r hr => h r (List.mem_cons_of_mem _ hr))
    rcases h rule (List.mem_cons_self _ _) with h1 | h1 <;>
      simp [Utils.checkRuleFormats, h1, hrest]

theorem checkRuleFormats_error {rules : List String} (h : ∃ r ∈ rules, ¬ wfRule r) :
    ∃ e, Utils.checkRuleFormats rules = .error e := by
  induction rules with
  | nil => simp at h
  | cons rule rest ih =>
    by_cases hw : wfRule rule
    · obtain ⟨e, he⟩ : ∃ e, Utils.checkRuleFormats rest = .error e := by
        apply ih
        obtain ⟨r, hmem, hnw⟩ := h
        rcases List.mem_cons.mp hmem with rfl | hmem'
        · exact absurd hw hnw
        · exact ⟨r, hmem', hnw⟩
      rcases hw with h1 | h1 <;> exact ⟨e, by simp [Utils.checkRuleFormats, h1, he]⟩
    · cases hch : pyCharAt rule 0 with
      | none =>
        exact ⟨"IndexError: string index out of range",
          by simp [Utils.checkRuleFormats, hch]⟩
      | some c =>
        have hne : ¬ (c = '+' || c = '-') = true := by
          simp only [wfRule, hch] at hw
          simpa using hw
        exact ⟨"ValueError: Unexpected first character in filename filter rule",
          by simp [Utils.checkRuleFormats, hch, hne]⟩

theorem scanRules_eq_firstMatchPolarity (fn : String) (rules : List String) :
    Utils.scanRules fn rules = firstMatchPolarity fn rules := by
  induction rules with
  | nil => rfl
  | cons rule rest ih =>
    by_cases hm : fnmatch fn (pyStrip (pyDrop rule 1)) = true
    · simp [Utils.scanRules, firstMatchPolarity, List.find?_cons, hm]
    · simp only [Bool.not_eq_true] at hm
      have h1 : Utils.scanRules fn (rule :: rest) = Utils.scanRules fn rest := by
        simp [Utils.scanRules, hm]
      have h2 : firstMatchPolarity fn (rule :: rest) = firstMatchPolarity fn rest := by
        simp [firstMatchPolarity, List.find?_cons, hm]
      rw [h1, h2, ih]

/-- C4.  For every path and rule list whose rules all start with `+`/`-`,
`utils.matches_filefilter` returns exactly the polarity of the first rule
whose stripped glob pattern matches (no match, including the empty list,
gives exclusion `False`); and any rule that does not start with `+`/`-`
makes the whole call raise (the format check runs over all rules before any
matching), rather than being skipped. -/
theorem filefilter_first_match (filename : String) (rules : List String) :
    ((∀ r ∈ rules, wfRule r) →
        Utils.matches_filefilter filename rules = .ok (firstMatchPolarity filename rules)) ∧
    ((∃ r ∈ rules, ¬ wfRule r) →
        ∃ e, Utils.matches_filefilter filename rules = .error e) := by
  constructor
  · intro h
    simp [Utils.matches_filefilter, checkRuleFormats_ok h, scanRules_eq_firstMatchPolarity]
  · intro h
    obtain ⟨e, he⟩ := checkRuleFormats_error h
    exact ⟨e, by simp [Utils.matches_filefilter, he]⟩

/-! ### C2: the concrete single-hunk parse scenario -/

def c2DiffText : String :=
  "--- a/x.py\n+++ b/x.py\n@@ -44,0 +45 @@\n+the new line"

/-- Counterexample to C2 as stated: at the claimed input the parsed hunk has
`source_start = 43` (the header's `44` minus one, per the zero-based
counter), not `44`. -/
theorem parse_scenario_counterexample :
    ¬ (∃ pf : PatchedFile, ∃ h : Hunk,
        parse_unified_diff c2DiffText "a/" "b/" = .ok [pf] ∧
        pf.hunks = [h] ∧ h.source_start = 44) := by
  rintro ⟨pf, h, hparse, hhunks, hss⟩
  have hres : parse_unified_diff c2DiffText "a/" "b/" =
      .ok [⟨some "x.py", some "x.py", [⟨43, [], ["the new line"]⟩]⟩] := by decide
  rw [hres] at hparse
  simp only [Except.ok.injEq, List.cons.injEq, and_true] at hparse
  subst hparse
  have hh : h = ⟨43, [], ["the new line"]⟩ := by simpa using hhunks.symm
  rw [hh] at hss
  exact absurd hss (by decide)

/-- C2 as amended: the diff text parses to exactly one `PatchedFile` with
source filename `x.py` and one hunk with `source_start = 43` (zero-based),
`add_lines = ['the new line']`, `del_lines = []`; `extract_files_lines`
maps `x.py` to the line set `{43}`. -/
theorem parse_scenario_amended :
    parse_unified_diff c2DiffText "a/" "b/" =
      .ok [⟨some "x.py", some "x.py", [⟨43, [], ["the new line"]⟩]⟩] ∧
    extract_files_lines [⟨some "x.py", some "x.py", [⟨43, [], ["the new line"]⟩]⟩] =
      [(some "x.py", some [43])] := by
  constructor <;> decide

/-! ### C5: the running-offset property of `target_starts` -/

theorem targetStartsAux_get (hs : List Hunk) (offset : Int) (k : Nat) (hk : k < hs.length) :
    (targetStartsAux offset hs).get? k =
      some ((hs.get ⟨k, hk⟩).source_start + offset +
        ((hs.take k).map
          (fun h => (h.target_length : Int) - (h.source_length : Int))).sum) := by
  induction hs generalizing offset k with
  | nil => simp at hk
  | cons h t ih =>
    cases k with
    | zero => simp [targetStartsAux]
    | succ k' =>
      have hk' : k' < t.length := by simpa using hk
      have hstep : (targetStartsAux offset (h :: t)).get? (k' + 1) =
          (targetStartsAux (offset + (h.target_length : Int) - (h.source_length : Int)) t).get? k' := by
        simp [targetStartsAux]
      rw [hstep, ih _ k' hk']
      simp only [List.take_succ_cons, List.map_cons, List.sum_cons, List.get_cons_succ,
        Option.some.injEq]
      ring

theorem targetStartsAux_all_eq (hs : List Hunk)
    (hEq : ∀ h ∈ hs, h.target_length = h.source_length) :
    targetStartsAux 0 hs = hs.map (fun h => h.source_start) := by
  induction hs with
  | nil => rfl
  | cons h t ih =>
    have h1 : (h.target_length : Int) - (h.source_length : Int) = 0 := by
      rw [hEq h (List.mem_cons_self _ _)]
      ring
    simp [targetStartsAux, h1, ih (fun x hx => hEq x (List.mem_cons_of_mem _ hx))]

/-- C5.  The `k`-th entry of `target_starts` is `hunks[k].source_start` plus
the accumulated offset `Σ over i < k of (target_length_i - source_length_i)`;
when every hunk has `target_length = source_length`, `target_starts` is
identical to `source_starts`. -/
theorem target_starts_offset (pf : PatchedFile) (k : Nat) (hk : k < pf.hunks.length) :
    pf.target_starts.get? k =
      some ((pf.hunks.get ⟨k, hk⟩).source_start +
        ((pf.hunks.take k).map
          (fun h => (h.target_length : Int) - (h.source_length : Int))).sum) ∧
    ((∀ h ∈ pf.hunks, h.target_length = h.source_length) →
      pf.target_starts = pf.source_starts) := by
  constructor
  · have h := targetStartsAux_get pf.hunks 0 k hk
    rw [PatchedFile.target_starts, h]
    simp [add_assoc, add_comm]
  · intro hEq
    rw [PatchedFile.target_starts, targetStartsAux_all_eq pf.hunks hEq]
    rfl

/-- Witness for C5 at a concrete two-hunk file (second hunk shifted by the
first hunk's net growth `2 - 1 = 1`). -/
theorem target_starts_offset_inst :
    (PatchedFile.mk (some "f.py") (some "f.py")
        [⟨5, ["a"], ["b", "c"]⟩, ⟨9, ["d"], ["e"]⟩]).target_starts.get? 1 = some 10 := by
  have h := (target_starts_offset
    ⟨some "f.py", some "f.py", [⟨5, ["a"], ["b", "c"]⟩, ⟨9, ["d"], ["e"]⟩]⟩ 1 (by decide)).1
  rw [h]
  decide

/-! ### C3: component-wise tail matching of glob rules -/

theorem reSplitAux_prev_irrel (l : List Char) (cur : List Char) (p1 p2 : Option Char)
    (h1 : p1 ≠ some '\\') (h2 : p2 ≠ some '\\') :
    Common.reSplitAux p1 cur l = Common.reSplitAux p2 cur l := by
  cases l with
  | nil => rfl
  | cons c rest =>
    by_cases hc : c = '/'
    · subst hc
      simp [Common.reSplitAux, h1, h2]
    · simp [Common.reSplitAux, hc]

theorem reSplitAux_append (d : List Char) (f : List Char) :
    ∀ (prev : Option Char) (cur : List Char), prev ≠ some '\\' →
    (∀ c ∈ d, c ≠ '/' ∧ c ≠ '\\') →
    Common.reSplitAux prev cur (d ++ '/' :: f) =
      (cur.reverse ++ d) :: Common.reSplitAux (some '/') [] f := by
  induction d with
  | nil =>
    intro prev cur hp _
    simp [Common.reSplitAux, hp]
  | cons c d' ih =>
    intro prev cur hp hd
    have hc := hd c (List.mem_cons_self _ _)
    have hrec := ih (some c) (c :: cur) (by simp [hc.2])
      (fun x hx => hd x (List.mem_cons_of_mem _ hx))
    simp only [List.cons_append]
    rw [show Common.reSplitAux prev cur (c :: (d' ++ '/' :: f)) =
        Common.reSplitAux (some c) (c :: cur) (d' ++ '/' :: f) from by
      simp [Common.reSplitAux, hc.1]]
    rw [hrec]
    simp

theorem reSplit_leading (d filename : String)
    (hd : ∀ c ∈ d.data, c ≠ '/' ∧ c ≠ '\\') :
    Common.reSplit (d ++ "/" ++ filename) = d :: Common.reSplit filename := by
  unfold Common.reSplit
  have hdata : (d ++ "/" ++ filename).data = d.data ++ '/' :: filename.data := by
    simp [String.data_append]
  rw [hdata, reSplitAux_append d.data filename.data none [] (by simp) hd]
  rw [reSplitAux_prev_irrel filename.data [] (some '/') none (by simp) (by simp)]
  simp

theorem zip_append_of_le {α β : Type} (ys : List β) (xs zs : List α)
    (h : ys.length ≤ xs.length) : (xs ++ zs).zip ys = xs.zip ys := by
  induction ys generalizing xs with
  | nil => simp
  | cons y ys' ih =>
    cases xs with
    | nil => simp at h
    | cons x xs' =>
      simp only [List.cons_append, List.zip_cons_cons, List.cons.injEq, true_and]
      exact ih xs' (by simpa using h)

theorem ruleMatches_leading (d : String) (filenameSplit : List String) (rule : String)
    (hm : Common.ruleMatches filenameSplit rule = true) :
    Common.ruleMatches (d :: filenameSplit) rule = true := by
  unfold Common.ruleMatches at hm ⊢
  by_cases hlen :
      filenameSplit.length < (Common.reSplit (pyStrip (pyDrop rule 1))).length
  · rw [if_pos hlen] at hm
    cases hm
  · rw [if_neg hlen] at hm
    rw [if_neg (by simp only [List.length_cons]; omega)]
    rw [List.reverse_cons,
      zip_append_of_le (Common.reSplit (pyStrip (pyDrop rule 1))).reverse
        filenameSplit.reverse [d] (by simpa using Nat.le_of_not_lt hlen)]
    exact hm

/-- C3 as amended: the component-wise tail matching described by the spec is
the behavior of the legacy `common.matches_filefilter` only.  For that
matcher: (a) a rule whose pattern has more segments than the path never
matches; (b) a rule match is preserved under any additional leading path
component, so a pattern such as `foo/*.py` matches no matter how many
components precede `foo`; (c) concretely, `+ foo/*.py` accepts
`a/b/foo/x.py`.  (The `utils.matches_filefilter` used by the Report and CLI
instead applies each rule's glob to the full path — the counterexample.) -/
theorem filefilter_componentwise (d rule filename : String) (filenameSplit : List String) :
    (filenameSplit.length < (Common.reSplit (pyStrip (pyDrop rule 1))).length →
        Common.ruleMatches filenameSplit rule = false) ∧
    (('/' ∉ d.data) → ('\\' ∉ d.data) →
        Common.ruleMatches (Common.reSplit filename) rule = true →
        Common.ruleMatches (Common.reSplit (d ++ "/" ++ filename)) rule = true) ∧
    Common.matches_filefilter "a/b/foo/x.py" ["+ foo/*.py"] = .ok (some true) := by
  refine ⟨?_, ?_, by decide⟩
  · intro hlen
    unfold Common.ruleMatches
    rw [if_pos hlen]
  · intro h1 h2 hm
    rw [reSplit_leading d filename (fun c hc => ⟨fun he => h1 (he ▸ hc), fun he => h2 (he ▸ hc)⟩)]
    exact ruleMatches_leading d (Common.reSplit filename) rule hm

/-- Witness for C3 (amended): the pattern `foo/*.py` keeps matching after a
leading component is added, via the theorem's part (b) at a concrete input. -/
theorem filefilter_componentwise_inst :
    Common.ruleMatches (Common.reSplit ("d" ++ "/" ++ "foo/x.py")) "+ foo/*.py" = true :=
  (filefilter_componentwise "d" "+ foo/*.py" "foo/x.py" []).2.1
    (by decide) (by decide) (by decide)

/-- Counterexample to C3 as stated: the `matches_filefilter` actually used
by `Report.filter_files` and the CLI (`cardboardlint/utils.py`) applies each
rule's glob to the full path, so `+ foo/*.py` accepts `foo/x.py` but rejects
`a/b/foo/x.py` — the match does not survive leading path components. -/
theorem filefilter_componentwise_counterexample :
    Utils.matches_filefilter "a/b/foo/x.py" ["+ foo/*.py"] = .ok false ∧
    Utils.matches_filefilter "foo/x.py" ["+ foo/*.py"] = .ok true := by
  constructor <;> decide

/-- Witness for C4 at the repo's own test inputs. -/
theorem filefilter_first_match_inst :
    Utils.matches_filefilter "foo/test/test_a.py" ["- */test_*.py", "+ *.py"] =
      .ok (firstMatchPolarity "foo/test/test_a.py" ["- */test_*.py", "+ *.py"]) ∧
    (∃ e, Utils.matches_filefilter "foo.py" ["bork"] = .error e) :=
  ⟨(filefilter_first_match "foo/test/test_a.py" ["- */test_*.py", "+ *.py"]).1 (by decide),
   (filefilter_first_match "foo.py" ["bork"]).2 ⟨"bork", by decide, by decide⟩⟩

/-! ### C6: `Linter.__call__` narrows the scope before invoking the body -/

/-- C6 (the code bug).  For any adapter body `lint` and any configuration
whose keys are all known to the linter, `Linter.__call__` (with
`fixit = False`) raises `AttributeError` after merging the config — linter.py
line 85 calls `report.filter(...)`, but `Report` defines `filter_files`
(report.py line 88) and no attribute named `filter` — so the scope is never
narrowed and the `lint` body is never invoked (the result does not depend on
`lint`). -/
theorem linter_call_scope_narrowing
    (lint : Config → Report → Int → Bool → Except String (Report × Bool))
    (l : Linter) (config : Config) (report : Report) (numproc : Int)
    (hconf : ∀ kv ∈ config, dictHasKey l.default_config kv.1 = true) :
    linterCall lint l config report numproc false =
      .error "AttributeError: Report object has no attribute filter" := by
  have hfind : config.find? (fun kv => ! dictHasKey l.default_config kv.1) = none := by
    rw [List.find?_eq_none]
    intro kv hkv
    simp [hconf kv hkv]
  simp [linterCall, apply_config_defaults, hfind]

/-- Witness for C6: a concrete invocation with an empty config. -/
theorem linter_call_scope_narrowing_inst :
    linterCall (fun _ _ _ _ => .ok (⟨"r", [], []⟩, false))
        ⟨"header", [("filefilter", .rules ["+ *"])], "static", "generic", false⟩
        [] ⟨"r", [], []⟩ 1 false =
      .error "AttributeError: Report object has no attribute filter" :=
  linter_call_scope_narrowing (fun _ _ _ _ => .ok (⟨"r", [], []⟩, false))
    ⟨"header", [("filefilter", .rules ["+ *"])], "static", "generic", false⟩
    [] ⟨"r", [], []⟩ 1 (by simp)

/-! ### C10: rejection leaves the report unchanged; `None` is never a key -/

theorem dictGet?_dictSet_ne {κ ν : Type} [DecidableEq κ] (d : List (κ × ν)) (k k' : κ)
    (v : ν) (h : k' ≠ k) : dictGet? (dictSet d k v) k' = dictGet? d k' := by
  induction d with
  | nil =>
    simp only [dictSet, dictGet?]
    rw [if_neg (fun he => h he.symm)]
  | cons kv rest ih =>
    by_cases hk : kv.1 = k
    · simp only [dictSet, if_pos hk, dictGet?]
      have hne : ¬ kv.1 = k' := fun he => h (he.symm.trans hk)
      rw [if_neg hne, if_neg hne]
    · simp only [dictSet, if_neg hk, dictGet?]
      by_cases hkk : kv.1 = k'
      · rw [if_pos hkk, if_pos hkk]
      · rw [if_neg hkk, if_neg hkk, ih]

theorem extractStep_none_key (res : FilesLines) (pf : PatchedFile)
    (h : dictGet? res none = none) : dictGet? (extractStep res pf) none = none := by
  unfold extractStep
  cases htf : pf.target_filename with
  | none => simpa using h
  | some name =>
    simp only [htf]
    rw [dictGet?_dictSet_ne _ _ _ _ (by simp)]
    exact h

theorem extract_files_lines_none_key (patch : List PatchedFile) :
    dictGet? (extract_files_lines patch) none = none := by
  suffices hgen : ∀ init : FilesLines, dictGet? init none = none →
      dictGet? (patch.foldl extractStep init) none = none by
    exact hgen [] rfl
  induction patch with
  | nil => intro init h; simpa using h
  | cons pf rest ih =>
    intro init h
    exact ih _ (extractStep_none_key init pf h)

theorem foldl_dictSet_some_none_key (l : List String) (init : FilesLines)
    (h : dictGet? init none = none) :
    dictGet? (l.foldl (fun acc fn => dictSet acc (some fn) none) init) none = none := by
  induction l generalizing init with
  | nil => simpa using h
  | cons fn rest ih =>
    exact ih _ ((dictGet?_dictSet_ne init (some fn) none none (by simp)).trans h)

theorem runDiffFullListing_none_key (ls1 ls2 : String) :
    dictGet? (runDiffFullListing ls1 ls2) none = none := by
  unfold runDiffFullListing
  exact foldl_dictSet_some_none_key _ _ (foldl_dictSet_some_none_key _ _ rfl)

theorem reportCall_none_key_reject (r : Report) (ln cn : Option Int) (tx : String)
    (nl : Int) (h : dictGet? r.files_lines none = none) :
    reportCall r none ln cn tx nl = .ok (r, false) := by
  simp [reportCall, h]

/-- C10.  A rejected proposal leaves the report (its message list and its
`files_lines` scope) unchanged; and a repository-wide finding with filename
`None` is always rejected against any scope produced by `run_diff` or
`extract_files_lines`, because `None` is never a key of those mappings. -/
theorem report_reject_unchanged :
    (∀ (r : Report) (fn : Option String) (ln cn : Option Int) (tx : String)
        (nl : Int) (r' : Report),
      reportCall r fn ln cn tx nl = .ok (r', false) → r' = r) ∧
    (∀ (dOut : String) (fl : FilesLines),
      runDiffWithRefspec dOut = .ok fl → dictGet? fl none = none) ∧
    (∀ (ls1 ls2 : String), dictGet? (runDiffFullListing ls1 ls2) none = none) ∧
    (∀ (r : Report) (dOut : String) (ln cn : Option Int) (tx : String) (nl : Int),
      runDiffWithRefspec dOut = .ok r.files_lines →
      reportCall r none ln cn tx nl = .ok (r, false)) ∧
    (∀ (r : Report) (ls1 ls2 : String) (ln cn : Option Int) (tx : String) (nl : Int),
      r.files_lines = runDiffFullListing ls1 ls2 →
      reportCall r none ln cn tx nl = .ok (r, false)) := by
  have hscope : ∀ (dOut : String) (fl : FilesLines),
      runDiffWithRefspec dOut = .ok fl → dictGet? fl none = none := by
    intro dOut fl h
    unfold runDiffWithRefspec at h
    cases hp : parse_unified_diff dOut "a/" "b/" with
    | error e => rw [hp] at h; simp [Except.map] at h
    | ok patch =>
      rw [hp] at h
      simp only [Except.map, Except.ok.injEq] at h
      rw [← h]
      exact extract_files_lines_none_key patch
  refine ⟨?_, hscope, runDiffFullListing_none_key, ?_, ?_⟩
  · intro r fn ln cn tx nl r' h
    unfold reportCall at h
    cases hget : dictGet? r.files_lines fn with
    | none =>
      simp only [hget] at h
      simp at h
      exact h.symm
    | some v =>
      simp only [hget] at h
      cases v with
      | none =>
        cases hmk : Message.make fn ln cn tx nl with
        | ok m => simp [hmk, Except.map] at h
        | error e => simp [hmk, Except.map] at h
      | some lns =>
        cases ln with
        | none =>
          cases hmk : Message.make fn none cn tx nl with
          | ok m => simp [hmk, Except.map] at h
          | error e => simp [hmk, Except.map] at h
        | some l0 =>
          by_cases hany : ∃ x ∈ rangeInt l0 (l0 + nl), x ∈ lns
          · cases hmk : Message.make fn (some l0) cn tx nl with
            | ok m => simp [hany, hmk, Except.map] at h
            | error e => simp [hany, hmk, Except.map] at h
          · simp [hany] at h
            exact h.symm
  · intro r dOut ln cn tx nl h
    exact reportCall_none_key_reject r ln cn tx nl (hscope dOut r.files_lines h)
  · intro r ls1 ls2 ln cn tx nl h
    exact reportCall_none_key_reject r ln cn tx nl
      (h ▸ runDiffFullListing_none_key ls1 ls2)

/-- Witness for C10 at a concrete full-listing scope. -/
theorem report_reject_unchanged_inst :
    reportCall ⟨"flake8", runDiffFullListing "a.py\nb.py" "c.py", []⟩ none none none
        "repository-wide finding" 1 =
      .ok (⟨"flake8", runDiffFullListing "a.py\nb.py" "c.py", []⟩, false) :=
  report_reject_unchanged.2.2.2.2 ⟨"flake8", runDiffFullListing "a.py\nb.py" "c.py", []⟩
    "a.py\nb.py" "c.py" none none "repository-wide finding" 1 rfl

/-! ### C8: unrecognized lines are skipped -/

/-- A line that none of the parser's branches recognizes: not a source or
target marker, not a hunk header, and not a `+`/`-`/space body line — and
nonempty (an empty line instead hits the `line[0]` access). -/
def unrecognizedLine (line : String) : Bool :=
  !(line = "") && !(pyStartsWith line "--- ") && !(pyStartsWith line "+++ ") &&
  !(pyStartsWith line "@@ ") && !(pyCharAt line 0 = some '+') &&
  !(pyCharAt line 0 = some '-') && !(pyCharAt line 0 = some ' ')

theorem parseMainGo_skip_unrec (spfx tpfx : String) (lines : List String) :
    ∀ (n : Nat) (st : ParseState), lines.length ≤ n →
    (∀ l ∈ lines, unrecognizedLine l = true) →
    parseMainGo spfx tpfx (n + 1) lines st =
      .ok (st.finished ++ currentToList st.current) := by
  induction lines with
  | nil => intro n st _ _; rfl
  | cons line rest ih =>
    intro n st hn hall
    have hl := hall line (List.mem_cons_self _ _)
    simp only [unrecognizedLine, Bool.and_eq_true, Bool.not_eq_true',
      decide_eq_false_iff_not] at hl
    obtain ⟨⟨⟨⟨⟨⟨h1, h2⟩, h3⟩, h4⟩, h5⟩, h6⟩, h7⟩ := hl
    cases n with
    | zero => simp at hn
    | succ m =>
      have hrest := ih m st (by simpa using hn) (fun l hl => hall l (List.mem_cons_of_mem _ hl))
      simp only [parseMainGo, h1, h2, h3, h4, h5, h6, h7]
      simpa using hrest

/-- C8 as amended: a diff text all of whose lines are unrecognized and
nonempty (e.g. `diff --git`, `index`, mode-change headers) is parsed by
skipping every line, returning the empty patch rather than failing; an
empty line, by contrast, raises `IndexError` (the counterexample). -/
theorem parse_skips_unrecognized (text spfx tpfx : String)
    (h : ∀ l ∈ pySplitlines text, unrecognizedLine l = true) :
    parse_unified_diff text spfx tpfx = .ok [] := by
  unfold parse_unified_diff
  have hgo := parseMainGo_skip_unrec spfx tpfx (pySplitlines text)
    (pySplitlines text).length ⟨none, none, none, [], none⟩ le_rfl h
  simpa [currentToList] using hgo

/-- Witness for C8 (amended) at a concrete metadata-only diff text. -/
theorem parse_skips_unrecognized_inst :
    parse_unified_diff "diff --git a/x b/x\nindex 951e42a..c6323b4 100644\nold mode 100644"
      "a/" "b/" = .ok [] :=
  parse_skips_unrecognized
    "diff --git a/x b/x\nindex 951e42a..c6323b4 100644\nold mode 100644" "a/" "b/"
    (by decide)

/-- Counterexample to C8 as stated: a diff text whose unrecognized lines
include an empty line makes `parse_unified_diff` raise `IndexError` (from
evaluating `line[0]` on `''`) instead of returning a patch. -/
theorem parse_skips_unrecognized_counterexample :
    parse_unified_diff "diff --git a/x b/x\n\nindex 951e42a..c6323b4 100644" "a/" "b/" =
      .error "IndexError: string index out of range" := by
  decide

/-! ### C7: every emitted hunk has at least one added or deleted line -/

/-- The C7 invariant over a list of patched files. -/
def hunksOK (pfs : List PatchedFile) : Prop :=
  ∀ pf ∈ pfs, ∀ h ∈ pf.hunks, h.add_lines ≠ [] ∨ h.del_lines ≠ []

theorem flushHunks_nonempty (ss : Option Int) (dels adds : List String) (h : Hunk)
    (hmem : h ∈ flushHunks ss dels adds) : h.add_lines ≠ [] ∨ h.del_lines ≠ [] := by
  unfold flushHunks at hmem
  by_cases hc : adds ≠ [] ∨ dels ≠ []
  · rw [if_pos hc] at hmem
    simp only [List.mem_singleton] at hmem
    subst hmem
    exact hc
  · rw [if_neg hc] at hmem
    simp at hmem

theorem parseHunksBody_nonempty (lines : List String) :
    ∀ (start : Int) (ss : Option Int) (dels adds : List String) (h : Hunk),
    h ∈ (parseHunksBody start ss dels adds lines).1 →
    h.add_lines ≠ [] ∨ h.del_lines ≠ [] := by
  induction lines with
  | nil =>
    intro start ss dels adds h hmem
    exact flushHunks_nonempty ss dels adds h hmem
  | cons line rest ih =>
    intro start ss dels adds h hmem
    unfold parseHunksBody at hmem
    by_cases hb : isHunkBodyLine line = true
    · rw [if_pos hb] at hmem
      by_cases hminus : pyCharAt line 0 = some '-'
      · rw [if_pos hminus] at hmem
        exact ih _ _ _ _ h hmem
      · rw [if_neg hminus] at hmem
        exact ih _ _ _ _ h hmem
    · rw [if_neg hb] at hmem
      by_cases hsp : pyStartsWith line " " = true
      · rw [if_pos hsp] at hmem
        rcases List.mem_append.mp (by simpa using hmem) with hx | hx
        · exact flushHunks_nonempty _ _ _ h hx
        · exact ih _ _ _ _ h hx
      · rw [if_neg hsp] at hmem
        exact flushHunks_nonempty _ _ _ h (by simpa using hmem)

theorem hunksOK_append {a b : List PatchedFile} (ha : hunksOK a) (hb : hunksOK b) :
    hunksOK (a ++ b) := by
  intro pf hpf
  rcases List.mem_append.mp hpf with hx | hx
  · exact ha pf hx
  · exact hb pf hx

theorem closeCurrent_finished_ok (st : ParseState) (hfin : hunksOK st.finished)
    (hcur : hunksOK (currentToList st.current)) :
    hunksOK (closeCurrent st).finished ∧ (closeCurrent st).current = none := by
  cases hc : st.current with
  | none =>
    rw [hc] at hcur
    constructor
    · simpa [closeCurrent, hc] using hfin
    · simp [closeCurrent, hc]
  | some c =>
    constructor
    · simp only [closeCurrent, hc]
      exact hunksOK_append hfin (by simpa [currentToList, hc] using hcur)
    · simp [closeCurrent, hc]

theorem parseMainGo_hunks_nonempty (spfx tpfx : String) :
    ∀ (fuel : Nat) (lines : List String) (st : ParseState) (pfs : List PatchedFile),
    hunksOK st.finished → hunksOK (currentToList st.current) →
    parseMainGo spfx tpfx fuel lines st = .ok pfs → hunksOK pfs := by
  intro fuel
  induction fuel with
  | zero =>
    intro lines st pfs _ _ hparse
    simp [parseMainGo] at hparse
  | succ n ih =>
    intro lines st pfs hfin hcur hparse
    cases lines with
    | nil =>
      simp only [parseMainGo, Except.ok.injEq] at hparse
      rw [← hparse]
      exact hunksOK_append hfin hcur
    | cons line rest =>
      unfold parseMainGo at hparse
      by_cases h1 : pyStartsWith line "--- " = true
      · rw [if_pos h1] at hparse
        cases hfn : parseDiffFilename line spfx with
        | error e =>
          rw [hfn] at hparse
          dsimp only at hparse
          cases hparse
        | ok fn =>
          rw [hfn] at hparse
          dsimp only at hparse
          obtain ⟨hf, hc⟩ := closeCurrent_finished_ok st hfin hcur
          refine ih rest _ pfs ?_ ?_ hparse
          · exact hf
          · intro pf hpf
            simp [currentToList, hc] at hpf
      · rw [if_neg h1] at hparse
        by_cases h2 : pyStartsWith line "+++ " = true
        · rw [if_pos h2] at hparse
          cases hfn : parseDiffFilename line tpfx with
          | error e =>
            rw [hfn] at hparse
            dsimp only at hparse
            cases hparse
          | ok fn =>
            rw [hfn] at hparse
            dsimp only at hparse
            obtain ⟨hf, hc⟩ := closeCurrent_finished_ok st hfin hcur
            refine ih rest _ pfs ?_ ?_ hparse
            · exact hf
            · intro pf hpf
              simp [currentToList, hc] at hpf
        · rw [if_neg h2] at hparse
          by_cases h3 : pyStartsWith line "@@ " = true
          · rw [if_pos h3] at hparse
            cases hfield : (pySplit line).get? 1 with
            | none =>
              rw [hfield] at hparse
              dsimp only at hparse
              cases hparse
            | some field =>
              rw [hfield] at hparse
              dsimp only at hparse
              cases hint : pyInt? ((pySplitChar (pyDrop field 1) ',').headD "") with
              | none =>
                rw [hint] at hparse
                dsimp only at hparse
                cases hparse
              | some nval =>
                rw [hint] at hparse
                dsimp only at hparse
                cases hc : st.current with
                | some c =>
                  rw [hc] at hparse
                  dsimp only at hparse
                  refine ih rest _ pfs ?_ ?_ hparse
                  · exact hfin
                  · intro pf hpf
                    exact hcur pf (by simpa [currentToList, hc] using hpf)
                | none =>
                  rw [hc] at hparse
                  dsimp only at hparse
                  cases hsf : st.source_filename with
                  | none =>
                    rw [hsf] at hparse
                    dsimp only at hparse
                    cases hparse
                  | some sf =>
                    cases htf : st.target_filename with
                    | none =>
                      rw [hsf, htf] at hparse
                      dsimp only at hparse
                      cases hparse
                    | some tf =>
                      rw [hsf, htf] at hparse
                      dsimp only at hparse
                      refine ih rest _ pfs ?_ ?_ hparse
                      · exact hfin
                      · intro pf hpf
                        have hpf' : pf = ⟨sf, tf, []⟩ := by
                          simpa [currentToList] using hpf
                        subst hpf'
                        intro h hh
                        simp at hh
          · rw [if_neg h3] at hparse
            by_cases h4 : line = ""
            · rw [if_pos h4] at hparse
              cases hparse
            · rw [if_neg h4] at hparse
              by_cases h5 : (pyCharAt line 0 = some '+' || pyCharAt line 0 = some '-'
                  || pyCharAt line 0 = some ' ') = true
              · rw [if_pos h5] at hparse
                cases hc : st.current with
                | none =>
                  rw [hc] at hparse
                  dsimp only at hparse
                  cases hparse
                | some c =>
                  rw [hc] at hparse
                  dsimp only at hparse
                  cases hst : st.start with
                  | none =>
                    rw [hst] at hparse
                    dsimp only at hparse
                    cases hparse
                  | some start =>
                    rw [hst] at hparse
                    dsimp only at hparse
                    refine ih _ _ pfs ?_ ?_ hparse
                    · exact hfin
                    · intro pf hpf
                      have hpf' : pf = ⟨c.1, c.2.1,
                          c.2.2 ++ (parseHunksBody start none [] [] (line :: rest)).1⟩ := by
                        simpa [currentToList] using hpf
                      subst hpf'
                      intro h hh
                      rcases List.mem_append.mp (by simpa using hh) with hx | hx
                      · exact hcur ⟨c.1, c.2.1, c.2.2⟩ (by simp [currentToList, hc]) h hx
                      · exact parseHunksBody_nonempty _ _ _ _ _ h hx
              · rw [if_neg h5] at hparse
                exact ih rest st pfs hfin hcur hparse

/-- C7.  Every `Hunk` contained in any `PatchedFile` returned by
`parse_unified_diff` has at least one added or one deleted line: hunks are
emitted only when nonempty. -/
theorem parse_hunks_nonempty (text spfx tpfx : String) (pfs : List PatchedFile)
    (hparse : parse_unified_diff text spfx tpfx = .ok pfs) :
    ∀ pf ∈ pfs, ∀ h ∈ pf.hunks, h.add_lines ≠ [] ∨ h.del_lines ≠ [] := by
  apply parseMainGo_hunks_nonempty spfx tpfx (pySplitlines text).length.succ
    (pySplitlines text) ⟨none, none, none, [], none⟩ pfs ?_ ?_ ?_
  · intro pf hpf
    simp at hpf
  · intro pf hpf
    simp [currentToList] at hpf
  · exact hparse

/-- Witness for C7: the hunk parsed from a one-line replacement diff is
nonempty. -/
theorem parse_hunks_nonempty_inst :
    (Hunk.mk 0 ["old line"] ["new line"]).add_lines ≠ [] ∨
      (Hunk.mk 0 ["old line"] ["new line"]).del_lines ≠ [] :=
  parse_hunks_nonempty "--- a/y.py\n+++ b/y.py\n@@ -1 +1 @@\n-old line\n+new line"
    "a/" "b/" [⟨some "y.py", some "y.py", [⟨0, ["old line"], ["new line"]⟩]⟩]
    (by decide) ⟨some "y.py", some "y.py", [⟨0, ["old line"], ["new line"]⟩]⟩
    (by simp) ⟨0, ["old line"], ["new line"]⟩ (by simp)

end Cardboardlint
